import Mathlib

/-!
Verification of the stock-dashboard backend (FastAPI ticker CRUD service).

The embedding models `src/backend/app/routers/tickers.py`,
`src/backend/app/services/stock_service.py` and the SQLAlchemy model
`src/backend/app/models/stock.py`.

Strings are modelled as `List Char`; Python's `str.upper()` is `pyUpper`
(character-wise `Char.toUpper`) and `str.strip()` is `pyStrip` (drop
whitespace at both ends).  The database table `stock_tickers` is a list of
rows plus the autoincrement counter; SQLAlchemy column defaults
(`is_active = True`, `added_at = utcnow`, `last_updated = utcnow`) are applied
at insert.  `datetime.utcnow()` is modelled by an explicit `now : Nat`
parameter of each mutating operation.  An aborted request (a raised
`HTTPException` before `db.commit()`) returns the error together with the
unchanged database.
-/

namespace App

abbrev Str := List Char

/-- Python `s.upper()` on an ASCII ticker string: uppercase every character. -/
def pyUpper (s : Str) : Str := s.map Char.toUpper

/-- Python `s.strip()`: remove leading and trailing whitespace. -/
def pyStrip (s : Str) : Str :=
  ((s.dropWhile Char.isWhitespace).reverse.dropWhile Char.isWhitespace).reverse

/-- The normalization applied by every route: `ticker.upper().strip()`. -/
def normalize (s : Str) : Str := pyStrip (pyUpper s)

/-- A row of the `stock_tickers` table (`app/models/stock.py`). -/
structure StockTicker where
  id : Nat
  ticker : Str
  company_name : Option Str
  is_active : Bool
  added_at : Nat
  last_updated : Nat
deriving DecidableEq, Repr

/-- The database: the `stock_tickers` table plus the autoincrement counter. -/
structure DB where
  rows : List StockTicker
  nextId : Nat
deriving DecidableEq, Repr

/-- The `detail` strings of the raised `HTTPException`s, structured: each
message names the (normalized) ticker. -/
inductive Detail where
  | alreadyExists (t : Str)
  | invalidSymbol (t : Str)
  | notFound (t : Str)
deriving DecidableEq, Repr

/-- `fastapi.HTTPException(status_code, detail)`. -/
structure HTTPException where
  status_code : Nat
  detail : Detail
deriving DecidableEq, Repr

/-- Outcome of the `yfinance` call `yf.Ticker(t).info`: either an exception
(transport failure, timeout, provider error) or the `info` dictionary.  A
dictionary value of `none` models JSON `null`. -/
inductive YfResult where
  | exception
  | ok (info : List (Str × Option Str))

/-- Python `dict` membership: `k in info`. -/
def dict_contains (info : List (Str × Option Str)) (k : Str) : Bool :=
  info.any (fun p => p.1 == k)

/-- Python `info.get(k, dflt)`: the stored value (possibly `None`) if the key
is present, else the default. -/
def dict_get (info : List (Str × Option Str)) (k : Str) (dflt : Option Str) :
    Option Str :=
  match info.find? (fun p => p.1 == k) with
  | some p => p.2
  | none => dflt

/-- `get_stock_info` (`app/services/stock_service.py`): validate the ticker
and return the company name; any exception is collapsed to `None`. -/
def get_stock_info (res : YfResult) (ticker : Str) : Option Str :=
  match res with
  | .exception => none
  | .ok info =>
    if dict_contains info ("symbol".toList) || dict_contains info ("shortName".toList) then
      dict_get info ("shortName".toList) (dict_get info ("longName".toList) (some ticker))
    else
      none

/-- `POST /tickers` (`add_ticker` in `app/routers/tickers.py`).  `lookup` is
the external validation call; `now` is `datetime.utcnow()`. -/
def add_ticker (lookup : Str → Option Str) (now : Nat) (input : Str) (db : DB) :
    Except HTTPException StockTicker × DB :=
  let ticker := normalize input
  match db.rows.find? (fun r => r.ticker == ticker) with
  | some _ => (.error ⟨400, .alreadyExists ticker⟩, db)
  | none =>
    match lookup ticker with
    | none => (.error ⟨404, .invalidSymbol ticker⟩, db)
    | some company_name =>
      let new_ticker : StockTicker :=
        { id := db.nextId, ticker := ticker, company_name := some company_name,
          is_active := true, added_at := now, last_updated := now }
      (.ok new_ticker, { rows := db.rows ++ [new_ticker], nextId := db.nextId + 1 })

/-- SQL ordering of `TEXT` values: lexicographic comparison by code point,
shorter string first on a tie of the common part. -/
def strLE : Str → Str → Bool
  | [], _ => true
  | _ :: _, [] => false
  | a :: as, b :: bs => if a < b then true else if b < a then false else strLE as bs

/-- `GET /tickers` (`list_tickers`): optional `is_active` filter, then
`ORDER BY ticker`. -/
def list_tickers (active_only : Bool) (db : DB) : List StockTicker :=
  let rows := if active_only then db.rows.filter (fun r => r.is_active) else db.rows
  rows.mergeSort (fun a b => strLE a.ticker b.ticker)

/-- `GET /tickers/{ticker}` (`get_ticker`): read-only. -/
def get_ticker (input : Str) (db : DB) : Except HTTPException StockTicker :=
  let ticker := normalize input
  match db.rows.find? (fun r => r.ticker == ticker) with
  | none => .error ⟨404, .notFound ticker⟩
  | some stock => .ok stock

/-- Replace the first element satisfying `p` (the ORM mutating the row that
the query returned). -/
def replaceFirst (p : α → Bool) (a : α) : List α → List α
  | [] => []
  | x :: xs => if p x then a :: xs else x :: replaceFirst p a xs

/-- `PATCH /tickers/{ticker}` (`update_ticker`): set `is_active` if supplied,
always refresh `last_updated`. -/
def update_ticker (now : Nat) (input : Str) (upd : Option Bool) (db : DB) :
    Except HTTPException StockTicker × DB :=
  let ticker := normalize input
  match db.rows.find? (fun r => r.ticker == ticker) with
  | none => (.error ⟨404, .notFound ticker⟩, db)
  | some stock =>
    let stock' : StockTicker :=
      { stock with
        is_active := match upd with | some b => b | none => stock.is_active,
        last_updated := now }
    (.ok stock', { db with rows := replaceFirst (fun r => r.ticker == ticker) stock' db.rows })

/-- The row mutation performed by `update_ticker` on the row it found. -/
def applyUpdate (upd : Option Bool) (now : Nat) (r : StockTicker) : StockTicker :=
  { r with
    is_active := match upd with | some b => b | none => r.is_active,
    last_updated := now }

/-- `DELETE /tickers/{ticker}` (`delete_ticker`). -/
def delete_ticker (input : Str) (db : DB) : Except HTTPException Unit × DB :=
  let ticker := normalize input
  match db.rows.find? (fun r => r.ticker == ticker) with
  | none => (.error ⟨404, .notFound ticker⟩, db)
  | some _ => (.ok (), { db with rows := db.rows.eraseP (fun r => r.ticker == ticker) })

/-- The empty database the service starts from (`Base.metadata.create_all`). -/
def DB.init : DB := { rows := [], nextId := 1 }

/-- States reachable through the five API operations, indexed by a lower
bound on the current clock: each mutating call happens at some `now` not
earlier than every previous call (`datetime.utcnow()` is monotone). -/
inductive Reachable : Nat → DB → Prop where
  | init : Reachable 0 DB.init
  | tick {t now : Nat} {db : DB} : Reachable t db → t ≤ now → Reachable now db
  | create {t now : Nat} {db : DB} (lookup : Str → Option Str) (input : Str) :
      Reachable t db → t ≤ now → Reachable now (add_ticker lookup now input db).2
  | update {t now : Nat} {db : DB} (input : Str) (upd : Option Bool) :
      Reachable t db → t ≤ now → Reachable now (update_ticker now input upd db).2
  | delete {t : Nat} {db : DB} (input : Str) :
      Reachable t db → Reachable t (delete_ticker input db).2

example : normalize ("aapl ".toList) = "AAPL".toList := by decide
example : normalize ("  TsLa".toList) = "TSLA".toList := by decide

/-! ### Normalization is idempotent -/

lemma char_lower_aux (n : Nat) (h1 : 97 ≤ n) (h2 : n ≤ 122) :
    Char.isWhitespace (Char.ofNat n) = false ∧
    Char.toUpper (Char.ofNat n) = Char.ofNat (n - 32) ∧
    Char.isWhitespace (Char.ofNat (n - 32)) = false ∧
    Char.toUpper (Char.ofNat (n - 32)) = Char.ofNat (n - 32) := by
  interval_cases n <;> exact ⟨by decide, by decide, by decide, by decide⟩

lemma toUpper_of_not_lower {c : Char} (h : ¬(97 ≤ c.toNat ∧ c.toNat ≤ 122)) :
    c.toUpper = c := by
  simp only [Char.toUpper]
  rw [if_neg]
  exact fun hyp => h ⟨hyp.1, hyp.2⟩

lemma toUpper_of_lower {c : Char} (h : 97 ≤ c.toNat ∧ c.toNat ≤ 122) :
    c.toUpper = Char.ofNat (c.toNat - 32) := by
  simp only [Char.toUpper]
  rw [if_pos]
  exact ⟨h.1, h.2⟩

lemma toUpper_toUpper (c : Char) : c.toUpper.toUpper = c.toUpper := by
  by_cases h : 97 ≤ c.toNat ∧ c.toNat ≤ 122
  · rw [toUpper_of_lower h]
    have := char_lower_aux c.toNat h.1 h.2
    rw [← Char.ofNat_toNat c, this.2.1] at *
    exact this.2.2.2
  · rw [toUpper_of_not_lower h, toUpper_of_not_lower h]

lemma isWhitespace_toUpper (c : Char) : c.toUpper.isWhitespace = c.isWhitespace := by
  by_cases h : 97 ≤ c.toNat ∧ c.toNat ≤ 122
  · have := char_lower_aux c.toNat h.1 h.2
    rw [toUpper_of_lower h, this.2.2.1, ← Char.ofNat_toNat c, this.1]
  · rw [toUpper_of_not_lower h]

lemma pyUpper_pyUpper (s : Str) : pyUpper (pyUpper s) = pyUpper s := by
  simp only [pyUpper, List.map_map]
  exact List.map_congr_left fun c _ => toUpper_toUpper c

lemma dropWhile_toUpper (s : Str) :
    (s.map Char.toUpper).dropWhile Char.isWhitespace =
      (s.dropWhile Char.isWhitespace).map Char.toUpper := by
  have hpred : (Char.isWhitespace ∘ Char.toUpper) = Char.isWhitespace :=
    funext isWhitespace_toUpper
  rw [List.dropWhile_map, hpred]

lemma pyUpper_pyStrip (s : Str) : pyStrip (pyUpper s) = pyUpper (pyStrip s) := by
  simp only [pyStrip, pyUpper]
  rw [dropWhile_toUpper, ← List.map_reverse, dropWhile_toUpper, ← List.map_reverse]

lemma dropWhile_idem (p : α → Bool) (l : List α) :
    (l.dropWhile p).dropWhile p = l.dropWhile p := by
  induction l with
  | nil => rfl
  | cons a t ih =>
    by_cases h : p a
    · rw [List.dropWhile_cons_of_pos h, ih]
    · rw [List.dropWhile_cons_of_neg h, List.dropWhile_cons_of_neg h]

/-- `rstrip` of a list is that list with a (whitespace) suffix removed. -/
lemma rstrip_append (l : List α) (p : α → Bool) :
    ∃ u, l = (l.reverse.dropWhile p).reverse ++ u := by
  obtain ⟨t, ht⟩ := List.dropWhile_suffix (l := l.reverse) p
  refine ⟨t.reverse, ?_⟩
  have := congrArg List.reverse ht
  rw [List.reverse_append, List.reverse_reverse] at this
  exact this.symm

/-- Removing trailing whitespace preserves "no leading whitespace". -/
lemma lstrip_rstrip {l : List α} {p : α → Bool} (h : l.dropWhile p = l) :
    ((l.reverse.dropWhile p).reverse).dropWhile p = (l.reverse.dropWhile p).reverse := by
  cases hz : (l.reverse.dropWhile p).reverse with
  | nil => rfl
  | cons a z =>
    obtain ⟨u, hu⟩ := rstrip_append l p
    rw [hz] at hu
    have hpa : p a = false := by
      by_contra hpa
      have hpa' : p a = true := by
        cases hval : p a
        · exact absurd hval hpa
        · rfl
      rw [hu, List.cons_append, List.dropWhile_cons_of_pos hpa'] at h
      have hlen := congrArg List.length h
      have hle : ((z ++ u).dropWhile p).length ≤ (z ++ u).length :=
        (List.dropWhile_suffix (l := z ++ u) p).sublist.length_le
      simp only [List.length_cons, List.length_append] at hlen hle
      omega
    rw [List.dropWhile_cons_of_neg (by simp [hpa])]

lemma pyStrip_pyStrip (s : Str) : pyStrip (pyStrip s) = pyStrip s := by
  simp only [pyStrip]
  rw [lstrip_rstrip (dropWhile_idem Char.isWhitespace s), List.reverse_reverse,
    dropWhile_idem]

lemma normalize_idem (s : Str) : normalize (normalize s) = normalize s := by
  show pyStrip (pyUpper (pyStrip (pyUpper s))) = pyStrip (pyUpper s)
  rw [(pyUpper_pyStrip (pyUpper s)).symm, pyUpper_pyUpper s, pyStrip_pyStrip (pyUpper s)]

example : normalize (normalize ("  xYz ".toList)) = "XYZ".toList := by decide

/-! ### `strLE` is a total transitive comparison -/

lemma strLE_total (a : Str) : ∀ b, strLE a b || strLE b a := by
  induction a with
  | nil => intro b; simp [strLE]
  | cons x xs ih =>
    intro b
    cases b with
    | nil => simp [strLE]
    | cons y ys =>
      simp only [strLE]
      rcases lt_trichotomy x y with h | h | h
      · rw [if_pos h]; simp
      · subst h
        rw [if_neg (lt_irrefl x), if_neg (lt_irrefl x), if_neg (lt_irrefl x),
          if_neg (lt_irrefl x)]
        exact ih ys
      · simp [h, lt_asymm h]

lemma strLE_trans (a : Str) : ∀ b c, strLE a b → strLE b c → strLE a c := by
  induction a with
  | nil => intro b c _ _; rfl
  | cons x xs ih =>
    intro b c hab hbc
    cases b with
    | nil => simp [strLE] at hab
    | cons y ys =>
      cases c with
      | nil => simp [strLE] at hbc
      | cons z zs =>
        simp only [strLE] at hab hbc ⊢
        rcases lt_trichotomy x y with h1 | h1 | h1
        · rcases lt_trichotomy y z with h2 | h2 | h2
          · rw [if_pos (lt_trans h1 h2)]
          · subst h2; rw [if_pos h1]
          · rw [if_neg (lt_asymm h2), if_pos h2] at hbc; simp at hbc
        · subst h1
          rw [if_neg (lt_irrefl x), if_neg (lt_irrefl x)] at hab
          rcases lt_trichotomy x z with h2 | h2 | h2
          · rw [if_pos h2]
          · subst h2
            rw [if_neg (lt_irrefl x), if_neg (lt_irrefl x)] at hbc ⊢
            exact ih ys zs hab hbc
          · rw [if_neg (lt_asymm h2), if_pos h2] at hbc; simp at hbc
        · rw [if_neg (lt_asymm h1), if_pos h1] at hab; simp at hab

/-! ### Characterization of the operations -/

lemma add_ticker_found {db : DB} {input : Str} {r : StockTicker}
    (lookup : Str → Option Str) (now : Nat)
    (hf : db.rows.find? (fun x => x.ticker == normalize input) = some r) :
    add_ticker lookup now input db =
      (.error ⟨400, .alreadyExists (normalize input)⟩, db) := by
  simp only [add_ticker, hf]

lemma add_ticker_invalid {db : DB} {input : Str} {lookup : Str → Option Str}
    (now : Nat)
    (hf : db.rows.find? (fun x => x.ticker == normalize input) = none)
    (hl : lookup (normalize input) = none) :
    add_ticker lookup now input db =
      (.error ⟨404, .invalidSymbol (normalize input)⟩, db) := by
  simp only [add_ticker, hf, hl]

lemma add_ticker_ok {db : DB} {input : Str} {lookup : Str → Option Str}
    {name : Str} (now : Nat)
    (hf : db.rows.find? (fun x => x.ticker == normalize input) = none)
    (hl : lookup (normalize input) = some name) :
    add_ticker lookup now input db =
      (.ok { id := db.nextId, ticker := normalize input, company_name := some name,
             is_active := true, added_at := now, last_updated := now },
       { rows := db.rows ++
           [{ id := db.nextId, ticker := normalize input, company_name := some name,
              is_active := true, added_at := now, last_updated := now }],
         nextId := db.nextId + 1 }) := by
  simp only [add_ticker, hf, hl]

lemma get_ticker_found {db : DB} {input : Str} {r : StockTicker}
    (hf : db.rows.find? (fun x => x.ticker == normalize input) = some r) :
    get_ticker input db = .ok r := by
  simp only [get_ticker, hf]

lemma get_ticker_absent {db : DB} {input : Str}
    (hf : db.rows.find? (fun x => x.ticker == normalize input) = none) :
    get_ticker input db = .error ⟨404, .notFound (normalize input)⟩ := by
  simp only [get_ticker, hf]

lemma update_ticker_found {db : DB} {input : Str} {r : StockTicker}
    (now : Nat) (upd : Option Bool)
    (hf : db.rows.find? (fun x => x.ticker == normalize input) = some r) :
    update_ticker now input upd db =
      (.ok (applyUpdate upd now r),
       { db with rows := (replaceFirst (fun x => x.ticker == normalize input)
           (applyUpdate upd now r) db.rows) }) := by
  simp only [update_ticker, hf, applyUpdate]

lemma update_ticker_absent {db : DB} {input : Str} (now : Nat) (upd : Option Bool)
    (hf : db.rows.find? (fun x => x.ticker == normalize input) = none) :
    update_ticker now input upd db = (.error ⟨404, .notFound (normalize input)⟩, db) := by
  simp only [update_ticker, hf]

lemma delete_ticker_found {db : DB} {input : Str} {r : StockTicker}
    (hf : db.rows.find? (fun x => x.ticker == normalize input) = some r) :
    delete_ticker input db =
      (.ok (), { db with rows := db.rows.eraseP (fun x => x.ticker == normalize input) }) := by
  simp only [delete_ticker, hf]

lemma delete_ticker_absent {db : DB} {input : Str}
    (hf : db.rows.find? (fun x => x.ticker == normalize input) = none) :
    delete_ticker input db = (.error ⟨404, .notFound (normalize input)⟩, db) := by
  simp only [delete_ticker, hf]

/-! ### `replaceFirst` -/

lemma replaceFirst_decomp {p : α → Bool} {l : List α} {r : α}
    (hf : l.find? p = some r) (a : α) :
    ∃ l₁ l₂, l = l₁ ++ r :: l₂ ∧ (∀ x ∈ l₁, ¬ p x) ∧
      replaceFirst p a l = l₁ ++ a :: l₂ := by
  induction l with
  | nil => simp at hf
  | cons x xs ih =>
    by_cases hx : p x
    · rw [List.find?_cons_of_pos _ hx] at hf
      cases hf
      exact ⟨[], xs, rfl, by simp, by simp [replaceFirst, hx]⟩
    · rw [List.find?_cons_of_neg _ hx] at hf
      obtain ⟨l₁, l₂, he, hnp, hr⟩ := ih hf
      exact ⟨x :: l₁, l₂, by simp [he], by simpa [hx] using hnp,
        by simp [replaceFirst, hx, hr]⟩

lemma mem_replaceFirst {p : α → Bool} {l : List α} {a x : α}
    (hx : x ∈ replaceFirst p a l) : x = a ∨ x ∈ l := by
  induction l with
  | nil => simp [replaceFirst] at hx
  | cons y ys ih =>
    by_cases hy : p y
    · simp only [replaceFirst, if_pos hy, List.mem_cons] at hx
      rcases hx with h | h
      · exact Or.inl h
      · exact Or.inr (List.mem_cons_of_mem _ h)
    · simp only [replaceFirst, if_neg hy, List.mem_cons] at hx
      rcases hx with h | h
      · exact Or.inr (by simp [h])
      · rcases ih h with h' | h'
        · exact Or.inl h'
        · exact Or.inr (List.mem_cons_of_mem _ h')

lemma replaceFirst_map_eq {p : α → Bool} {l : List α} {a : α} (f : α → β)
    (h : ∀ x ∈ l, p x → f x = f a) :
    (replaceFirst p a l).map f = l.map f := by
  induction l with
  | nil => rfl
  | cons y ys ih =>
    by_cases hy : p y
    · simp only [replaceFirst, if_pos hy, List.map_cons]
      rw [h y (by simp) hy]
    · simp only [replaceFirst, if_neg hy, List.map_cons]
      rw [ih (fun x hx hpx => h x (List.mem_cons_of_mem _ hx) hpx)]

/-! ### The store invariant -/

/-- Invariant of every reachable database state: timestamps are ordered and
bounded by the clock, tickers are normalized and unique. -/
def Inv (t : Nat) (db : DB) : Prop :=
  (∀ r ∈ db.rows, r.added_at ≤ r.last_updated ∧ r.last_updated ≤ t ∧
    normalize r.ticker = r.ticker) ∧
  (db.rows.map (fun r => r.ticker)).Nodup

lemma Inv_mono {t now : Nat} {db : DB} (h : Inv t db) (hle : t ≤ now) :
    Inv now db := by
  refine ⟨fun r hr => ?_, h.2⟩
  obtain ⟨h1, h2, h3⟩ := h.1 r hr
  exact ⟨h1, le_trans h2 hle, h3⟩

lemma not_mem_map_ticker_of_find?_none {db : DB} {t : Str}
    (hf : db.rows.find? (fun x => x.ticker == t) = none) :
    t ∉ db.rows.map (fun r => r.ticker) := by
  intro hmem
  obtain ⟨r, hr, hrt⟩ := List.mem_map.mp hmem
  exact (List.find?_eq_none.mp hf r hr) (by simp [hrt])

lemma Inv_create {t now : Nat} {db : DB} (lookup : Str → Option Str)
    (input : Str) (h : Inv t db) (hle : t ≤ now) :
    Inv now (add_ticker lookup now input db).2 := by
  rcases hf : db.rows.find? (fun x => x.ticker == normalize input) with _ | r
  · rcases hl : lookup (normalize input) with _ | name
    · rw [add_ticker_invalid now hf hl]
      exact Inv_mono h hle
    · rw [add_ticker_ok now hf hl]
      constructor
      · intro r hr
        rcases List.mem_append.mp hr with hold | hnew
        · obtain ⟨h1, h2, h3⟩ := h.1 r hold
          exact ⟨h1, le_trans h2 hle, h3⟩
        · rw [List.mem_singleton.mp hnew]
          exact ⟨le_refl now, le_refl now, normalize_idem input⟩
      · rw [List.map_append]
        refine List.Nodup.append h.2 (List.nodup_singleton _) ?_
        intro a ha hmem
        rw [List.mem_singleton.mp hmem] at ha
        exact not_mem_map_ticker_of_find?_none hf ha
  · rw [add_ticker_found lookup now hf]
    exact Inv_mono h hle

lemma Inv_update {t now : Nat} {db : DB} (input : Str) (upd : Option Bool)
    (h : Inv t db) (hle : t ≤ now) :
    Inv now (update_ticker now input upd db).2 := by
  rcases hf : db.rows.find? (fun x => x.ticker == normalize input) with _ | r
  · rw [update_ticker_absent now upd hf]
    exact Inv_mono h hle
  · rw [update_ticker_found now upd hf]
    dsimp only
    have hrmem : r ∈ db.rows := List.mem_of_find?_eq_some hf
    have hrtick : r.ticker = normalize input := by
      have := List.find?_some hf
      simpa using this
    obtain ⟨hr1, hr2, hr3⟩ := h.1 r hrmem
    constructor
    · intro x hx
      rcases mem_replaceFirst hx with hnew | hold
      · subst hnew
        refine ⟨?_, le_refl now, ?_⟩
        · exact le_trans hr1 (le_trans hr2 hle)
        · simpa [applyUpdate] using hr3
      · obtain ⟨h1, h2, h3⟩ := h.1 x hold
        exact ⟨h1, le_trans h2 hle, h3⟩
    · have hmap : (replaceFirst (fun x => x.ticker == normalize input)
          (applyUpdate upd now r) db.rows).map (fun x => x.ticker) =
            db.rows.map (fun x => x.ticker) := by
        apply replaceFirst_map_eq
        intro x _ hpx
        have hxt : x.ticker = normalize input := by simpa using hpx
        simp [applyUpdate, hxt, hrtick]
      rw [hmap]
      exact h.2

lemma Inv_delete {t : Nat} {db : DB} (input : Str) (h : Inv t db) :
    Inv t (delete_ticker input db).2 := by
  rcases hf : db.rows.find? (fun x => x.ticker == normalize input) with _ | r
  · rw [delete_ticker_absent hf]
    exact h
  · rw [delete_ticker_found hf]
    have hsub : List.Sublist (db.rows.eraseP (fun x => x.ticker == normalize input))
        db.rows := List.eraseP_sublist db.rows
    constructor
    · intro x hx
      exact h.1 x (hsub.mem hx)
    · exact List.Nodup.sublist (hsub.map (fun r => r.ticker)) h.2

/-- Every reachable database state satisfies the invariant. -/
lemma reachable_inv {t : Nat} {db : DB} (h : Reachable t db) : Inv t db := by
  induction h with
  | init => exact ⟨by simp [DB.init], by simp [DB.init]⟩
  | tick _ hle ih => exact Inv_mono ih hle
  | create lookup input _ hle ih => exact Inv_create lookup input ih hle
  | update input upd _ hle ih => exact Inv_update input upd ih hle
  | delete input _ ih => exact Inv_delete input ih

/-! ### Inversion of successful operations -/

lemma add_ticker_ok_inv {lookup : Str → Option Str} {now : Nat} {input : Str}
    {db db' : DB} {rec : StockTicker}
    (h : add_ticker lookup now input db = (.ok rec, db')) :
    db.rows.find? (fun x => x.ticker == normalize input) = none ∧
    ∃ name, lookup (normalize input) = some name ∧
      rec = { id := db.nextId, ticker := normalize input, company_name := some name,
              is_active := true, added_at := now, last_updated := now } ∧
      db' = { rows := db.rows ++ [rec], nextId := db.nextId + 1 } := by
  rcases hf : db.rows.find? (fun x => x.ticker == normalize input) with _ | r0
  · rcases hl : lookup (normalize input) with _ | name
    · rw [add_ticker_invalid now hf hl] at h
      simp at h
    · rw [add_ticker_ok now hf hl] at h
      rw [Prod.mk.injEq, Except.ok.injEq] at h
      rcases h with ⟨h1, h2⟩
      subst h2
      subst h1
      exact ⟨hf, name, rfl, rfl, rfl⟩
  · rw [add_ticker_found lookup now hf] at h
    simp at h

lemma update_ticker_ok_inv {now : Nat} {input : Str} {upd : Option Bool}
    {db db' : DB} {rec : StockTicker}
    (h : update_ticker now input upd db = (.ok rec, db')) :
    ∃ r, db.rows.find? (fun x => x.ticker == normalize input) = some r ∧
      rec = applyUpdate upd now r ∧
      db' = { db with rows := (replaceFirst (fun x => x.ticker == normalize input)
        rec db.rows) } := by
  rcases hf : db.rows.find? (fun x => x.ticker == normalize input) with _ | r
  · rw [update_ticker_absent now upd hf] at h
    simp at h
  · rw [update_ticker_found now upd hf] at h
    rw [Prod.mk.injEq, Except.ok.injEq] at h
    rcases h with ⟨h1, h2⟩
    subst h2
    subst h1
    exact ⟨r, hf, rfl, rfl⟩

lemma delete_ticker_ok_inv {input : Str} {db db' : DB} {u : Unit}
    (h : delete_ticker input db = (.ok u, db')) :
    ∃ r, db.rows.find? (fun x => x.ticker == normalize input) = some r ∧
      db' = { db with rows := db.rows.eraseP (fun x => x.ticker == normalize input) } := by
  rcases hf : db.rows.find? (fun x => x.ticker == normalize input) with _ | r
  · rw [delete_ticker_absent hf] at h
    simp at h
  · rw [delete_ticker_found hf] at h
    rw [Prod.mk.injEq] at h
    exact ⟨r, hf, h.2.symm⟩

/-! ### The claims -/

/-- C1: after a successful create, a second create of any casing/whitespace
variant of the same ticker fails with HTTP 400 naming the ticker, leaves the
store unchanged, and does so for every lookup function (the external lookup
is not consulted); exactly one record with that ticker is stored. -/
theorem C1_duplicate_create_conflict
    (lookup lookup' : Str → Option Str) (now now' : Nat) (input input' : Str)
    (db db' : DB) (rec : StockTicker)
    (hok : add_ticker lookup now input db = (.ok rec, db'))
    (hvar : normalize input' = normalize input) :
    add_ticker lookup' now' input' db' =
      (.error ⟨400, .alreadyExists (normalize input)⟩, db') ∧
    (db'.rows.filter (fun r => r.ticker == normalize input)).length = 1 := by
  obtain ⟨hf, name, hl, hrec, hdb'⟩ := add_ticker_ok_inv hok
  have hrt : rec.ticker = normalize input := by rw [hrec]
  have hfind' : db'.rows.find? (fun x => x.ticker == normalize input') = some rec := by
    rw [hdb', hvar]
    dsimp only
    rw [List.find?_append, hf, Option.none_or]
    simp [List.find?_cons, hrt]
  constructor
  · have h := add_ticker_found lookup' now' hfind'
    rw [hvar] at h
    exact h
  · rw [hdb']
    dsimp only
    rw [List.filter_append]
    have h1 : db.rows.filter (fun x => x.ticker == normalize input) = [] :=
      List.filter_eq_nil_iff.mpr (List.find?_eq_none.mp hf)
    rw [h1]
    simp [hrt]

/-- Witness for C1 at concrete inputs: create `"aapl "` then create `" Aapl"`. -/
theorem C1_witness :
    (add_ticker (fun _ => some ("Apple".toList)) 3 ("aapl ".toList) DB.init =
      (.ok ⟨1, "AAPL".toList, some ("Apple".toList), true, 3, 3⟩,
       ⟨[⟨1, "AAPL".toList, some ("Apple".toList), true, 3, 3⟩], 2⟩) ∧
     normalize (" Aapl".toList) = normalize ("aapl ".toList)) ∧
    (add_ticker (fun _ => none) 9 (" Aapl".toList)
        ⟨[⟨1, "AAPL".toList, some ("Apple".toList), true, 3, 3⟩], 2⟩ =
      (.error ⟨400, .alreadyExists (normalize ("aapl ".toList))⟩,
       ⟨[⟨1, "AAPL".toList, some ("Apple".toList), true, 3, 3⟩], 2⟩) ∧
     ((⟨[⟨1, "AAPL".toList, some ("Apple".toList), true, 3, 3⟩], 2⟩ : DB).rows.filter
        (fun r => r.ticker == normalize ("aapl ".toList))).length = 1) :=
  ⟨⟨rfl, rfl⟩,
   C1_duplicate_create_conflict (fun _ => some ("Apple".toList)) (fun _ => none)
     3 9 ("aapl ".toList) (" Aapl".toList) DB.init
     ⟨[⟨1, "AAPL".toList, some ("Apple".toList), true, 3, 3⟩], 2⟩
     ⟨1, "AAPL".toList, some ("Apple".toList), true, 3, 3⟩ rfl rfl⟩

/-- C2: when the external lookup — the `yfinance` call with every exception
collapsed to `None` by `get_stock_info` — yields no name for a ticker not yet
stored, create fails with HTTP 404 naming the ticker and the store is
unchanged; a transport failure (`YfResult.exception`) always collapses to
`none`. -/
theorem C2_invalid_symbol_rejected
    (yf : Str → YfResult) (now : Nat) (input : Str) (db : DB)
    (hf : db.rows.find? (fun r => r.ticker == normalize input) = none)
    (hnf : get_stock_info (yf (normalize input)) (normalize input) = none) :
    add_ticker (fun t => get_stock_info (yf t) t) now input db =
      (.error ⟨404, .invalidSymbol (normalize input)⟩, db) ∧
    (∀ t, get_stock_info .exception t = none) :=
  ⟨add_ticker_invalid now hf hnf, fun _ => rfl⟩

/-- Witness for C2: a provider outage on creating `"msft"` in the empty store. -/
theorem C2_witness :
    ((DB.init).rows.find? (fun r => r.ticker == normalize ("msft".toList)) = none ∧
     get_stock_info ((fun _ => YfResult.exception) (normalize ("msft".toList)))
       (normalize ("msft".toList)) = none) ∧
    (add_ticker (fun t => get_stock_info ((fun _ => YfResult.exception) t) t) 7
        ("msft".toList) DB.init =
      (.error ⟨404, .invalidSymbol (normalize ("msft".toList))⟩, DB.init) ∧
     (∀ t, get_stock_info .exception t = none)) :=
  ⟨⟨rfl, rfl⟩,
   C2_invalid_symbol_rejected (fun _ => YfResult.exception) 7 ("msft".toList)
     DB.init rfl rfl⟩

/-- C3: creating an unseen ticker accepted by the lookup succeeds, and an
immediate get on any casing/whitespace variant returns a record whose ticker
is the normalized symbol, whose company name is the resolved display name and
which is active. -/
theorem C3_create_then_get
    (lookup : Str → Option Str) (now : Nat) (input input' : Str) (db : DB)
    (name : Str)
    (hf : db.rows.find? (fun r => r.ticker == normalize input) = none)
    (hl : lookup (normalize input) = some name)
    (hvar : normalize input' = normalize input) :
    ∃ rec db', add_ticker lookup now input db = (.ok rec, db') ∧
      get_ticker input' db' = .ok rec ∧
      rec.ticker = normalize input ∧
      rec.company_name = some name ∧
      rec.is_active = true := by
  rw [add_ticker_ok now hf hl]
  refine ⟨_, _, rfl, ?_, rfl, rfl, rfl⟩
  apply get_ticker_found
  rw [hvar]
  dsimp only
  rw [List.find?_append, hf, Option.none_or]
  simp [List.find?_cons]

/-- Witness for C3: create `" tsla"` resolved to `"Tesla, Inc."`, get `"TSLA "`. -/
theorem C3_witness :
    ((DB.init).rows.find? (fun r => r.ticker == normalize (" tsla".toList)) = none ∧
     (fun _ => some ("Tesla, Inc.".toList)) (normalize (" tsla".toList)) =
       some ("Tesla, Inc.".toList) ∧
     normalize ("TSLA ".toList) = normalize (" tsla".toList)) ∧
    (∃ rec db',
      add_ticker (fun _ => some ("Tesla, Inc.".toList)) 11 (" tsla".toList) DB.init =
        (.ok rec, db') ∧
      get_ticker ("TSLA ".toList) db' = .ok rec ∧
      rec.ticker = normalize (" tsla".toList) ∧
      rec.company_name = some ("Tesla, Inc.".toList) ∧
      rec.is_active = true) :=
  ⟨⟨rfl, rfl, rfl⟩,
   C3_create_then_get (fun _ => some ("Tesla, Inc.".toList)) 11 (" tsla".toList)
     ("TSLA ".toList) DB.init ("Tesla, Inc.".toList) rfl rfl rfl⟩

/-- C4: listing with `active_only = true` returns exactly the active records,
with `active_only = false` all records, and in both cases the result is
sorted ascending by ticker string. -/
theorem C4_list_filter_and_sort (db : DB) :
    (∀ r, r ∈ list_tickers true db ↔ r ∈ db.rows ∧ r.is_active = true) ∧
    List.Perm (list_tickers true db) (db.rows.filter (fun r => r.is_active)) ∧
    List.Perm (list_tickers false db) db.rows ∧
    (∀ ao : Bool, (list_tickers ao db).Pairwise (fun a b => strLE a.ticker b.ticker)) := by
  have hperm1 : List.Perm (list_tickers true db) (db.rows.filter (fun r => r.is_active)) := by
    simpa [list_tickers] using
      List.mergeSort_perm (db.rows.filter (fun r => r.is_active))
        (fun a b => strLE a.ticker b.ticker)
  have hperm2 : List.Perm (list_tickers false db) db.rows := by
    simpa [list_tickers] using
      List.mergeSort_perm db.rows (fun a b => strLE a.ticker b.ticker)
  refine ⟨?_, hperm1, hperm2, ?_⟩
  · intro r
    rw [hperm1.mem_iff, List.mem_filter]
  · intro ao
    have h := @List.sorted_mergeSort StockTicker
      (fun a b => strLE a.ticker b.ticker)
      (fun a b c => strLE_trans a.ticker b.ticker c.ticker)
      (fun a b => strLE_total a.ticker b.ticker)
    cases ao with
    | true => simpa [list_tickers] using h (db.rows.filter (fun r => r.is_active))
    | false => simpa [list_tickers] using h db.rows

/-- C5: a successful update always sets `last_updated` to the call's `now`
(strictly after the record's previous `last_updated`, the clock having moved
on since that write), whether or not `is_active` was supplied; when it is
supplied the stored value equals it, observable by a subsequent get on any
variant of the ticker. -/
theorem C5_update_refreshes_last_updated
    (now : Nat) (input input' : Str) (upd : Option Bool) (db : DB) (r : StockTicker)
    (hf : db.rows.find? (fun x => x.ticker == normalize input) = some r)
    (hclock : r.last_updated < now)
    (hvar : normalize input' = normalize input) :
    ∃ rec' db', update_ticker now input upd db = (.ok rec', db') ∧
      rec'.last_updated = now ∧
      r.last_updated < rec'.last_updated ∧
      (∀ b, upd = some b → rec'.is_active = b) ∧
      get_ticker input' db' = .ok rec' := by
  rw [update_ticker_found now upd hf]
  refine ⟨_, _, rfl, rfl, hclock, ?_, ?_⟩
  · intro b hb
    subst hb
    rfl
  · apply get_ticker_found
    rw [hvar]
    dsimp only
    obtain ⟨l₁, l₂, hdec, hnp, hrep⟩ := replaceFirst_decomp hf (applyUpdate upd now r)
    rw [hrep, List.find?_append, List.find?_eq_none.mpr hnp, Option.none_or]
    have hticker : (applyUpdate upd now r).ticker = normalize input := by
      have := List.find?_some hf
      simpa [applyUpdate] using this
    simp [List.find?_cons, hticker]

/-- Witness for C5: deactivate a stored `TSLA` record at a later clock. -/
theorem C5_witness :
    ((⟨[⟨1, "TSLA".toList, some ("Tesla".toList), true, 3, 3⟩], 2⟩ : DB).rows.find?
        (fun x => x.ticker == normalize ("tsla".toList)) =
      some ⟨1, "TSLA".toList, some ("Tesla".toList), true, 3, 3⟩ ∧
     (⟨1, "TSLA".toList, some ("Tesla".toList), true, 3, 3⟩ : StockTicker).last_updated < 9 ∧
     normalize (" TSLA".toList) = normalize ("tsla".toList)) ∧
    (∃ rec' db',
      update_ticker 9 ("tsla".toList) (some false)
          ⟨[⟨1, "TSLA".toList, some ("Tesla".toList), true, 3, 3⟩], 2⟩ = (.ok rec', db') ∧
      rec'.last_updated = 9 ∧
      (⟨1, "TSLA".toList, some ("Tesla".toList), true, 3, 3⟩ : StockTicker).last_updated <
        rec'.last_updated ∧
      (∀ b, (some false : Option Bool) = some b → rec'.is_active = b) ∧
      get_ticker (" TSLA".toList) db' = .ok rec') :=
  ⟨⟨rfl, by decide, rfl⟩,
   C5_update_refreshes_last_updated 9 ("tsla".toList) (" TSLA".toList) (some false)
     ⟨[⟨1, "TSLA".toList, some ("Tesla".toList), true, 3, 3⟩], 2⟩
     ⟨1, "TSLA".toList, some ("Tesla".toList), true, 3, 3⟩ rfl (by decide) rfl⟩

/-- C6: get, update and delete on a ticker absent from the store fail with
HTTP 404 naming the ticker and leave the store unchanged; a successful delete
removes exactly the one record with that (unique) ticker, after which a get
on any variant of it fails with 404. -/
theorem C6_not_found_and_delete
    (inputA : Str) (dbA : DB) (now : Nat) (upd : Option Bool)
    (inputB inputB' : Str) (dbB : DB) (r : StockTicker)
    (hA : dbA.rows.find? (fun x => x.ticker == normalize inputA) = none)
    (hB : dbB.rows.find? (fun x => x.ticker == normalize inputB) = some r)
    (huniq : (dbB.rows.map (fun x => x.ticker)).Nodup)
    (hvar : normalize inputB' = normalize inputB) :
    (get_ticker inputA dbA = .error ⟨404, .notFound (normalize inputA)⟩ ∧
     update_ticker now inputA upd dbA = (.error ⟨404, .notFound (normalize inputA)⟩, dbA) ∧
     delete_ticker inputA dbA = (.error ⟨404, .notFound (normalize inputA)⟩, dbA)) ∧
    (∃ db', delete_ticker inputB dbB = (.ok (), db') ∧
      db'.rows.length + 1 = dbB.rows.length ∧
      (∀ x ∈ dbB.rows, x.ticker ≠ normalize inputB → x ∈ db'.rows) ∧
      (∀ x ∈ db'.rows, x ∈ dbB.rows) ∧
      get_ticker inputB' db' = .error ⟨404, .notFound (normalize inputB)⟩) := by
  refine ⟨⟨get_ticker_absent hA, update_ticker_absent now upd hA, delete_ticker_absent hA⟩, ?_⟩
  rw [delete_ticker_found hB]
  have hmem : r ∈ dbB.rows := List.mem_of_find?_eq_some hB
  have hpr := List.find?_some hB
  obtain ⟨a, l₁, l₂, hnp, hpa, hdec, herase⟩ :=
    List.exists_of_eraseP (p := fun x => x.ticker == normalize inputB) hmem hpr
  have hat : a.ticker = normalize inputB := by simpa using hpa
  have hlen : dbB.rows.length = l₁.length + 1 + l₂.length := by
    rw [hdec]; simp; omega
  refine ⟨_, rfl, ?_, ?_, ?_, ?_⟩
  · dsimp only
    rw [herase, hlen]
    simp
    omega
  · intro x hx hxt
    dsimp only
    rw [herase]
    rw [hdec] at hx
    rcases List.mem_append.mp hx with h1 | h2
    · exact List.mem_append.mpr (Or.inl h1)
    · rcases List.mem_cons.mp h2 with h3 | h4
      · exact absurd (h3 ▸ hat) hxt
      · exact List.mem_append.mpr (Or.inr h4)
  · intro x hx
    dsimp only at hx
    rw [herase] at hx
    rw [hdec]
    rcases List.mem_append.mp hx with h1 | h2
    · exact List.mem_append.mpr (Or.inl h1)
    · exact List.mem_append.mpr (Or.inr (List.mem_cons_of_mem _ h2))
  · rw [← hvar]
    apply get_ticker_absent
    dsimp only
    rw [hvar, herase, List.find?_eq_none]
    intro x hx
    rcases List.mem_append.mp hx with h1 | h2
    · have := hnp x h1
      simpa using this
    · intro hpx
      have hxt : x.ticker = normalize inputB := by simpa using hpx
      rw [hdec, List.map_append, List.map_cons] at huniq
      have hnodup2 : (a.ticker :: l₂.map (fun x => x.ticker)).Nodup :=
        List.Nodup.of_append_right huniq
      have hnotmem : a.ticker ∉ l₂.map (fun x => x.ticker) :=
        (List.nodup_cons.mp hnodup2).1
      exact hnotmem (List.mem_map.mpr ⟨x, h2, by rw [hxt, hat]⟩)

/-- Witness for C6: a miss on `"nope"` in the empty store, and deleting the
only record `TSLA` then getting it again. -/
theorem C6_witness :
    ((DB.init).rows.find? (fun x => x.ticker == normalize ("nope".toList)) = none ∧
     (⟨[⟨1, "TSLA".toList, some ("Tesla".toList), true, 3, 3⟩], 2⟩ : DB).rows.find?
        (fun x => x.ticker == normalize ("tsla ".toList)) =
       some ⟨1, "TSLA".toList, some ("Tesla".toList), true, 3, 3⟩ ∧
     ((⟨[⟨1, "TSLA".toList, some ("Tesla".toList), true, 3, 3⟩], 2⟩ : DB).rows.map
        (fun x => x.ticker)).Nodup ∧
     normalize ("TSLA".toList) = normalize ("tsla ".toList)) ∧
    ((get_ticker ("nope".toList) DB.init =
        .error ⟨404, .notFound (normalize ("nope".toList))⟩ ∧
      update_ticker 4 ("nope".toList) none DB.init =
        (.error ⟨404, .notFound (normalize ("nope".toList))⟩, DB.init) ∧
      delete_ticker ("nope".toList) DB.init =
        (.error ⟨404, .notFound (normalize ("nope".toList))⟩, DB.init)) ∧
     (∃ db', delete_ticker ("tsla ".toList)
          ⟨[⟨1, "TSLA".toList, some ("Tesla".toList), true, 3, 3⟩], 2⟩ = (.ok (), db') ∧
       db'.rows.length + 1 =
         (⟨[⟨1, "TSLA".toList, some ("Tesla".toList), true, 3, 3⟩], 2⟩ : DB).rows.length ∧
       (∀ x ∈ (⟨[⟨1, "TSLA".toList, some ("Tesla".toList), true, 3, 3⟩], 2⟩ : DB).rows,
         x.ticker ≠ normalize ("tsla ".toList) → x ∈ db'.rows) ∧
       (∀ x ∈ db'.rows,
         x ∈ (⟨[⟨1, "TSLA".toList, some ("Tesla".toList), true, 3, 3⟩], 2⟩ : DB).rows) ∧
       get_ticker ("TSLA".toList) db' =
         .error ⟨404, .notFound (normalize ("tsla ".toList))⟩)) :=
  ⟨⟨rfl, rfl, by decide, rfl⟩,
   C6_not_found_and_delete ("nope".toList) DB.init 4 none ("tsla ".toList)
     ("TSLA".toList) ⟨[⟨1, "TSLA".toList, some ("Tesla".toList), true, 3, 3⟩], 2⟩
     ⟨1, "TSLA".toList, some ("Tesla".toList), true, 3, 3⟩ rfl rfl (by decide) rfl⟩

/-- C7: in every state reachable through the five API operations,
`last_updated ≥ added_at` for every record; create establishes it by setting
both timestamps to the same `now`, and a successful update keeps `added_at`
and sets `last_updated` to its `now`. -/
theorem C7_timestamp_invariant {t : Nat} {db : DB} (h : Reachable t db) :
    (∀ r ∈ db.rows, r.added_at ≤ r.last_updated) ∧
    (∀ (lookup : Str → Option Str) (now : Nat) (input : Str) (db₀ db₁ : DB)
        (rec : StockTicker),
      add_ticker lookup now input db₀ = (.ok rec, db₁) →
      rec.added_at = now ∧ rec.last_updated = now) ∧
    (∀ (now : Nat) (input : Str) (upd : Option Bool) (db₀ db₁ : DB)
        (r rec : StockTicker),
      db₀.rows.find? (fun x => x.ticker == normalize input) = some r →
      update_ticker now input upd db₀ = (.ok rec, db₁) →
      rec.added_at = r.added_at ∧ rec.last_updated = now) := by
  refine ⟨fun r hr => ((reachable_inv h).1 r hr).1, ?_, ?_⟩
  · intro lookup now input db₀ db₁ rec hok
    obtain ⟨_, name, _, hrec, _⟩ := add_ticker_ok_inv hok
    rw [hrec]
    exact ⟨rfl, rfl⟩
  · intro now input upd db₀ db₁ r rec hf hok
    obtain ⟨r', hf', hrec, _⟩ := update_ticker_ok_inv hok
    rw [hf] at hf'
    injection hf' with hrr
    subst hrr
    rw [hrec]
    exact ⟨rfl, rfl⟩

/-- Witness for C7: the state after one create at clock 5. -/
theorem C7_witness :
    (∀ r ∈ ((add_ticker (fun _ => some ("Apple".toList)) 5 ("aapl".toList)
        DB.init).2).rows, r.added_at ≤ r.last_updated) ∧
    (∀ (lookup : Str → Option Str) (now : Nat) (input : Str) (db₀ db₁ : DB)
        (rec : StockTicker),
      add_ticker lookup now input db₀ = (.ok rec, db₁) →
      rec.added_at = now ∧ rec.last_updated = now) ∧
    (∀ (now : Nat) (input : Str) (upd : Option Bool) (db₀ db₁ : DB)
        (r rec : StockTicker),
      db₀.rows.find? (fun x => x.ticker == normalize input) = some r →
      update_ticker now input upd db₀ = (.ok rec, db₁) →
      rec.added_at = r.added_at ∧ rec.last_updated = now) :=
  C7_timestamp_invariant
    (Reachable.create (fun _ => some ("Apple".toList)) ("aapl".toList)
      Reachable.init (Nat.zero_le 5))

/-- C8: a successful update changes at most the found record's `is_active`
and `last_updated`: its `id`, `ticker`, `company_name` and `added_at` are
kept, every other row keeps its position and value, and the autoincrement
counter is untouched. -/
theorem C8_update_frame
    (now : Nat) (input : Str) (upd : Option Bool) (db : DB) (r : StockTicker)
    (hf : db.rows.find? (fun x => x.ticker == normalize input) = some r) :
    ∃ rec' db', update_ticker now input upd db = (.ok rec', db') ∧
      rec'.id = r.id ∧ rec'.ticker = r.ticker ∧
      rec'.company_name = r.company_name ∧ rec'.added_at = r.added_at ∧
      db'.nextId = db.nextId ∧
      ∃ l₁ l₂, db.rows = l₁ ++ r :: l₂ ∧ db'.rows = l₁ ++ rec' :: l₂ := by
  rw [update_ticker_found now upd hf]
  obtain ⟨l₁, l₂, hdec, hnp, hrep⟩ := replaceFirst_decomp hf (applyUpdate upd now r)
  exact ⟨_, _, rfl, rfl, rfl, rfl, rfl, rfl, l₁, l₂, hdec, hrep⟩

/-- Witness for C8: updating `AAPL` in a two-record store leaves `TSLA` as is. -/
theorem C8_witness :
    ((⟨[⟨1, "AAPL".toList, some ("Apple".toList), true, 3, 3⟩,
        ⟨2, "TSLA".toList, some ("Tesla".toList), true, 4, 4⟩], 3⟩ : DB).rows.find?
      (fun x => x.ticker == normalize ("aapl".toList)) =
       some ⟨1, "AAPL".toList, some ("Apple".toList), true, 3, 3⟩) ∧
    (∃ rec' db', update_ticker 9 ("aapl".toList) (some false)
        ⟨[⟨1, "AAPL".toList, some ("Apple".toList), true, 3, 3⟩,
          ⟨2, "TSLA".toList, some ("Tesla".toList), true, 4, 4⟩], 3⟩ = (.ok rec', db') ∧
      rec'.id = (⟨1, "AAPL".toList, some ("Apple".toList), true, 3, 3⟩ : StockTicker).id ∧
      rec'.ticker = (⟨1, "AAPL".toList, some ("Apple".toList), true, 3, 3⟩ : StockTicker).ticker ∧
      rec'.company_name =
        (⟨1, "AAPL".toList, some ("Apple".toList), true, 3, 3⟩ : StockTicker).company_name ∧
      rec'.added_at =
        (⟨1, "AAPL".toList, some ("Apple".toList), true, 3, 3⟩ : StockTicker).added_at ∧
      db'.nextId = (⟨[⟨1, "AAPL".toList, some ("Apple".toList), true, 3, 3⟩,
          ⟨2, "TSLA".toList, some ("Tesla".toList), true, 4, 4⟩], 3⟩ : DB).nextId ∧
      ∃ l₁ l₂, (⟨[⟨1, "AAPL".toList, some ("Apple".toList), true, 3, 3⟩,
          ⟨2, "TSLA".toList, some ("Tesla".toList), true, 4, 4⟩], 3⟩ : DB).rows =
            l₁ ++ ⟨1, "AAPL".toList, some ("Apple".toList), true, 3, 3⟩ :: l₂ ∧
        db'.rows = l₁ ++ rec' :: l₂) :=
  ⟨rfl,
   C8_update_frame 9 ("aapl".toList) (some false)
     ⟨[⟨1, "AAPL".toList, some ("Apple".toList), true, 3, 3⟩,
       ⟨2, "TSLA".toList, some ("Tesla".toList), true, 4, 4⟩], 3⟩
     ⟨1, "AAPL".toList, some ("Apple".toList), true, 3, 3⟩ rfl⟩

/-- C9: every stored ticker is a fixed point of the normalization
`upper then strip`, and the four ticker-addressed operations depend on their
ticker input only through its normalization, so inputs with equal
normalizations address the same record. -/
theorem C9_normalized_addressing {t : Nat} {db : DB} (h : Reachable t db) :
    (∀ r ∈ db.rows, normalize r.ticker = r.ticker) ∧
    (∀ input input', normalize input = normalize input' →
      get_ticker input db = get_ticker input' db ∧
      (∀ now upd, update_ticker now input upd db = update_ticker now input' upd db) ∧
      delete_ticker input db = delete_ticker input' db ∧
      (∀ (lookup : Str → Option Str) now,
        add_ticker lookup now input db = add_ticker lookup now input' db)) := by
  refine ⟨fun r hr => ((reachable_inv h).1 r hr).2.2, ?_⟩
  intro input input' hvar
  refine ⟨?_, ?_, ?_, ?_⟩
  · simp only [get_ticker, hvar]
  · intro now upd
    simp only [update_ticker, hvar]
  · simp only [delete_ticker, hvar]
  · intro lookup now
    simp only [add_ticker, hvar]

/-- Witness for C9: the state after one create at clock 5. -/
theorem C9_witness :
    (∀ r ∈ ((add_ticker (fun _ => some ("Apple".toList)) 5 ("aapl".toList)
        DB.init).2).rows, normalize r.ticker = r.ticker) ∧
    (∀ input input', normalize input = normalize input' →
      get_ticker input (add_ticker (fun _ => some ("Apple".toList)) 5 ("aapl".toList)
          DB.init).2 =
        get_ticker input' (add_ticker (fun _ => some ("Apple".toList)) 5 ("aapl".toList)
          DB.init).2 ∧
      (∀ now upd, update_ticker now input upd
          (add_ticker (fun _ => some ("Apple".toList)) 5 ("aapl".toList) DB.init).2 =
        update_ticker now input' upd
          (add_ticker (fun _ => some ("Apple".toList)) 5 ("aapl".toList) DB.init).2) ∧
      delete_ticker input
          (add_ticker (fun _ => some ("Apple".toList)) 5 ("aapl".toList) DB.init).2 =
        delete_ticker input'
          (add_ticker (fun _ => some ("Apple".toList)) 5 ("aapl".toList) DB.init).2 ∧
      (∀ (lookup : Str → Option Str) now,
        add_ticker lookup now input
            (add_ticker (fun _ => some ("Apple".toList)) 5 ("aapl".toList) DB.init).2 =
          add_ticker lookup now input'
            (add_ticker (fun _ => some ("Apple".toList)) 5 ("aapl".toList) DB.init).2)) :=
  C9_normalized_addressing
    (Reachable.create (fun _ => some ("Apple".toList)) ("aapl".toList)
      Reachable.init (Nat.zero_le 5))

lemma dict_find?_none {info : List (Str × Option Str)} {k : Str}
    (h : dict_contains info k = false) :
    info.find? (fun p => p.1 == k) = none := by
  rw [List.find?_eq_none]
  intro x hx
  exact List.any_eq_false.mp h x hx

/-- C10: every record created through `add_ticker` has a non-null
`company_name`: a `None` lookup result is rejected with an error before
insertion, and when the provider validates the symbol (`"symbol"` key
present) but supplies neither `"shortName"` nor `"longName"`, the stored
`company_name` is the normalized ticker string itself. -/
theorem C10_company_name_nonnull
    (yf : Str → YfResult) (now : Nat) (input : Str) (db : DB)
    (info : List (Str × Option Str))
    (hf : db.rows.find? (fun x => x.ticker == normalize input) = none)
    (hyf : yf (normalize input) = .ok info)
    (hsym : dict_contains info ("symbol".toList) = true)
    (hshort : dict_contains info ("shortName".toList) = false)
    (hlong : dict_contains info ("longName".toList) = false) :
    (∃ rec db', add_ticker (fun s => get_stock_info (yf s) s) now input db =
        (.ok rec, db') ∧ rec.company_name = some (normalize input)) ∧
    (∀ (lookup : Str → Option Str) (now' : Nat) (inp : Str) (db₀ db₁ : DB)
        (rec : StockTicker),
      add_ticker lookup now' inp db₀ = (.ok rec, db₁) →
      rec.company_name.isSome = true) ∧
    (∀ (lookup : Str → Option Str) (now' : Nat) (inp : Str) (db₀ : DB),
      lookup (normalize inp) = none →
      db₀.rows.find? (fun x => x.ticker == normalize inp) = none →
      add_ticker lookup now' inp db₀ =
        (.error ⟨404, .invalidSymbol (normalize inp)⟩, db₀)) := by
  refine ⟨?_, ?_, ?_⟩
  · have hlookup : (fun s => get_stock_info (yf s) s) (normalize input) =
        some (normalize input) := by
      show get_stock_info (yf (normalize input)) (normalize input) = some (normalize input)
      rw [hyf]
      simp only [get_stock_info, hsym, Bool.true_or, if_true]
      rw [dict_get, dict_find?_none hshort, dict_get, dict_find?_none hlong]
    generalize hL : (fun s => get_stock_info (yf s) s) = L at hlookup ⊢
    rw [add_ticker_ok now hf hlookup]
    exact ⟨_, _, rfl, rfl⟩
  · intro lookup now' inp db₀ db₁ rec hok
    obtain ⟨_, name, _, hrec, _⟩ := add_ticker_ok_inv hok
    rw [hrec]
    rfl
  · intro lookup now' inp db₀ hl hf₀
    exact add_ticker_invalid now' hf₀ hl

/-- Witness for C10: a provider `info` that validates `"xyz"` without any
display name; the stored company name is the ticker `XYZ` itself. -/
theorem C10_witness :
    ((DB.init).rows.find? (fun x => x.ticker == normalize ("xyz".toList)) = none ∧
     (fun _ => YfResult.ok [("symbol".toList, some ("XYZ".toList))])
        (normalize ("xyz".toList)) =
       YfResult.ok [("symbol".toList, some ("XYZ".toList))] ∧
     dict_contains [("symbol".toList, some ("XYZ".toList))] ("symbol".toList) = true ∧
     dict_contains [("symbol".toList, some ("XYZ".toList))] ("shortName".toList) = false ∧
     dict_contains [("symbol".toList, some ("XYZ".toList))] ("longName".toList) = false) ∧
    ((∃ rec db',
       add_ticker (fun s => get_stock_info
           ((fun _ => YfResult.ok [("symbol".toList, some ("XYZ".toList))]) s) s) 6
           ("xyz".toList) DB.init = (.ok rec, db') ∧
       rec.company_name = some (normalize ("xyz".toList))) ∧
     (∀ (lookup : Str → Option Str) (now' : Nat) (inp : Str) (db₀ db₁ : DB)
         (rec : StockTicker),
       add_ticker lookup now' inp db₀ = (.ok rec, db₁) →
       rec.company_name.isSome = true) ∧
     (∀ (lookup : Str → Option Str) (now' : Nat) (inp : Str) (db₀ : DB),
       lookup (normalize inp) = none →
       db₀.rows.find? (fun x => x.ticker == normalize inp) = none →
       add_ticker lookup now' inp db₀ =
         (.error ⟨404, .invalidSymbol (normalize inp)⟩, db₀))) :=
  ⟨⟨rfl, rfl, rfl, rfl, rfl⟩,
   C10_company_name_nonnull
     (fun _ => YfResult.ok [("symbol".toList, some ("XYZ".toList))]) 6
     ("xyz".toList) DB.init [("symbol".toList, some ("XYZ".toList))]
     rfl rfl rfl rfl rfl⟩

end App
